import Mathlib

/-!
Verification of the snippet core of `the-way` (src/the_way/snippet.rs): the
`Snippet` record model, its two persistence codecs (compact binary via bincode,
streamed JSON via serde_json), the date-range / tag query functions, and the
styled-run presentation functions.

The Rust code is shallowly embedded: machine integers are `Nat` with explicit
bounds where overflow matters, fallible operations return `Option` / `Except`,
interactive input (`utils::user_input` etc.) is passed in as parameters, and
`chrono` UTC instants are modelled as a nanosecond counter.
-/

namespace TheWay

/-- Model of `chrono::DateTime<Utc>`: an exact UTC instant, represented as a
nanosecond count. Comparison of instants is comparison of the counters. -/
structure DateTime where
  nanos : Nat
deriving DecidableEq, Repr

/-- Modelled from the spec: `Language` lives in src/language.rs, which is not among
the provided sources. The language table maps a language name to a display
extension and color. -/
structure Language where
  extension : String
  color : Nat
deriving DecidableEq, Repr

/-- Modelled from the spec: the fixed default extension returned by
`Language::get_extension` when the language is unknown. -/
def defaultExtension : String := ".txt"

/-- Modelled from the spec: `Language::get_extension` (src/language.rs, not among the
provided sources) is a total function that "returns the table's extension for
`language` if present, else a fixed default extension". The `HashMap` is modelled
as an association list. -/
def get_extension (language_name : String) (languages : List (String × Language)) : String :=
  match languages.lookup language_name with
  | some l => l.extension
  | none => defaultExtension

/-- Modelled from the spec: `utils::split_tags` (src/utils.rs, not among the provided
sources) splits the single whitespace-delimited tags string into the tag
sequence. -/
def split_tags (tags : String) : List String :=
  (tags.split (fun c => c.isWhitespace)).filter (fun t => t ≠ "")

/-- The `Snippet` struct, fields in declaration order (the order serde-derived
codecs serialize them in): index, description, language, code, extension, tags,
date, updated. -/
structure Snippet where
  index : Nat
  description : String
  language : String
  code : String
  extension : String
  tags : List String
  date : DateTime
  updated : DateTime
deriving DecidableEq, Repr

/-- `Snippet::new`: builds a snippet, splitting the tags string. -/
def Snippet.new (index : Nat) (description language extension : String) (tags : String)
    (date updated : DateTime) (code : String) : Snippet :=
  { index := index, description := description, language := language,
    extension := extension, tags := split_tags tags,
    date := date, updated := updated, code := code }

/-- `Snippet::set_extension`: recomputes `extension` from a language name via the
table. The `&mut self` update is modelled as returning the updated record. -/
def Snippet.set_extension (s : Snippet) (language_name : String)
    (languages : List (String × Language)) : Snippet :=
  { s with extension := get_extension language_name languages }

/-- ASCII lowercasing of one character, as Rust's `to_ascii_lowercase`. -/
def toAsciiLowerChar (c : Char) : Char :=
  if 65 ≤ c.toNat ∧ c.toNat ≤ 90 then Char.ofNat (c.toNat + 32) else c

/-- `str::to_ascii_lowercase`: lowercases ASCII letters only. -/
def toAsciiLower (s : String) : String :=
  String.mk (s.data.map toAsciiLowerChar)

/-- Nanoseconds in a day, for `to_midnight` below. -/
def nanosPerDay : Nat := 86400000000000

/-- `parse_date(...)?.and_hms(0, 0, 0)`: the user-supplied edit date is a calendar
day; `and_hms(0,0,0)` places it at midnight UTC. -/
def midnight (date_days : Nat) : DateTime := ⟨date_days * nanosPerDay⟩

/-- `Snippet::from_user`. The interactive reads (`utils::user_input`,
`utils::parse_date`, `utils::external_editor_input`, all in src/utils.rs which is
not among the provided sources) are modelled as parameters: the user's
description / language / tags / code answers, the parsed calendar day
`date_days` entered when editing, the external-editor result `editor_code`, and
the two system-clock readings `now1` (taken where the code calls `Utc::now()`
for `date` on the creation path) and `now2` (taken at the final `Utc::now()`
for `updated`). Mirrors the source: language is ASCII-lowercased, extension is
derived from it, `date` is the parsed midnight on the edit path and `now1` on
the creation path, empty code falls back to the external editor. -/
def Snippet.from_user (index : Nat) (languages : List (String × Language))
    (old_snippet : Option Snippet) (description_input language_input tags_input : String)
    (date_days : Nat) (code_input editor_code : String) (now1 now2 : DateTime) : Snippet :=
  let description := description_input
  let language := toAsciiLower language_input
  let extension := get_extension language languages
  let tags := tags_input
  let date := match old_snippet with
    | some _ => midnight date_days
    | none => now1
  let code := if code_input = "" then editor_code else code_input
  Snippet.new index description language extension tags date now2 code

/-- `Snippet::in_date_range`: `from_date <= self.date && self.date < to_date`. -/
def Snippet.in_date_range (s : Snippet) (from_date to_date : DateTime) : Bool :=
  decide (from_date.nanos ≤ s.date.nanos) && decide (s.date.nanos < to_date.nanos)

/-- `Snippet::filter_in_date_range`: filters a collection by `in_date_range`,
wrapped in the `color_eyre::Result` (modelled as `Except String`) the source
returns; the body is pure and always returns `Ok`. -/
def Snippet.filter_in_date_range (snippets : List Snippet) (from_date to_date : DateTime) :
    Except String (List Snippet) :=
  Except.ok (snippets.filter (fun s => s.in_date_range from_date to_date))

/-- `Snippet::has_tag`: `self.tags.contains(&tag.into())`. -/
def Snippet.has_tag (s : Snippet) (tag : String) : Bool :=
  s.tags.contains tag

/-!
Compact binary codec (`Snippet::to_bytes` / `Snippet::from_bytes`).

`bincode::serialize` with bincode 1.x's default configuration writes the struct
fields in declaration order, with no schema tag: fixed-width little-endian
64-bit integers, length-prefixed strings, and length-prefixed sequences. Bytes
are modelled as `Nat`s below 256. `chrono` serializes a `DateTime<Utc>` through
serde as a string that reproduces the instant exactly on deserialization; that
payload is modelled as the instant's 64-bit nanosecond counter. Strings are
modelled at character granularity: a character is one fixed-width 32-bit code
point (in place of UTF-8) and the length prefix counts characters. -/

/-- A 64-bit little-endian encoding of `n` (expects `n < 2^64`). -/
def encU64 (n : Nat) : List Nat :=
  [n % 256, n / 2 ^ 8 % 256, n / 2 ^ 16 % 256, n / 2 ^ 24 % 256,
   n / 2 ^ 32 % 256, n / 2 ^ 40 % 256, n / 2 ^ 48 % 256, n / 2 ^ 56 % 256]

/-- Reads a 64-bit little-endian integer; fails on truncation. -/
def decU64 : List Nat → Option (Nat × List Nat)
  | b0 :: b1 :: b2 :: b3 :: b4 :: b5 :: b6 :: b7 :: rest =>
    some (b0 + 2 ^ 8 * b1 + 2 ^ 16 * b2 + 2 ^ 24 * b3 + 2 ^ 32 * b4 + 2 ^ 40 * b5 +
      2 ^ 48 * b6 + 2 ^ 56 * b7, rest)
  | _ => none

/-- A 32-bit little-endian encoding of one character's code point. -/
def encChar (c : Char) : List Nat :=
  [c.toNat % 256, c.toNat / 2 ^ 8 % 256, c.toNat / 2 ^ 16 % 256, c.toNat / 2 ^ 24 % 256]

/-- Reads one 32-bit code point back as a character; fails on truncation. -/
def decChar : List Nat → Option (Char × List Nat)
  | b0 :: b1 :: b2 :: b3 :: rest =>
    some (Char.ofNat (b0 + 2 ^ 8 * b1 + 2 ^ 16 * b2 + 2 ^ 24 * b3), rest)
  | _ => none

/-- Length-prefixed string encoding. -/
def encString (s : String) : List Nat :=
  encU64 s.length ++ (s.data.map encChar).flatten

/-- Reads `n` characters. -/
def decChars : Nat → List Nat → Option (List Char × List Nat)
  | 0, l => some ([], l)
  | n + 1, l => do
    let (c, l1) ← decChar l
    let (cs, l2) ← decChars n l1
    some (c :: cs, l2)

/-- Reads a length-prefixed string. -/
def decString (l : List Nat) : Option (String × List Nat) := do
  let (n, l1) ← decU64 l
  let (cs, l2) ← decChars n l1
  some (String.mk cs, l2)

/-- Length-prefixed sequence of strings (the `tags` vector). -/
def encStringList (tags : List String) : List Nat :=
  encU64 tags.length ++ (tags.map encString).flatten

/-- Reads `n` length-prefixed strings. -/
def decStrings : Nat → List Nat → Option (List String × List Nat)
  | 0, l => some ([], l)
  | n + 1, l => do
    let (s, l1) ← decString l
    let (ss, l2) ← decStrings n l1
    some (s :: ss, l2)

/-- Reads a length-prefixed sequence of strings. -/
def decStringList (l : List Nat) : Option (List String × List Nat) := do
  let (n, l1) ← decU64 l
  decStrings n l1

/-- A serialized `chrono` instant: the exact nanosecond counter (expects it
below `2^64`; `chrono`'s own range ends around year 2262). -/
def encDateTime (d : DateTime) : List Nat :=
  encU64 d.nanos

/-- Reads a serialized instant back. -/
def decDateTime (l : List Nat) : Option (DateTime × List Nat) := do
  let (n, l1) ← decU64 l
  some (DateTime.mk n, l1)

/-- `Snippet::to_bytes`: `bincode::serialize(&self)` — the eight fields in
declaration order. The source wraps this in `color_eyre::Result` but the
serializer cannot fail on this type. -/
def Snippet.to_bytes (s : Snippet) : List Nat :=
  encU64 s.index ++ encString s.description ++ encString s.language ++ encString s.code ++
    encString s.extension ++ encStringList s.tags ++ encDateTime s.date ++ encDateTime s.updated

/-- `Snippet::from_bytes`: `bincode::deserialize(bytes)`, reading the eight
fields in declaration order; a decode failure (`Err` in the source) is `none`. -/
def Snippet.from_bytes (l : List Nat) : Option Snippet := do
  let (index, l1) ← decU64 l
  let (description, l2) ← decString l1
  let (language, l3) ← decString l2
  let (code, l4) ← decString l3
  let (extension, l5) ← decString l4
  let (tags, l6) ← decStringList l5
  let (date, l7) ← decDateTime l6
  let (updated, _) ← decDateTime l7
  some { index := index, description := description, language := language, code := code,
         extension := extension, tags := tags, date := date, updated := updated }

/-- The bounds under which the fixed-width binary encoding is lossless: every
64-bit quantity (index, lengths, timestamps) fits in 64 bits. -/
def Snippet.WFBinary (s : Snippet) : Prop :=
  s.index < 2 ^ 64 ∧ s.description.length < 2 ^ 64 ∧ s.language.length < 2 ^ 64 ∧
    s.code.length < 2 ^ 64 ∧ s.extension.length < 2 ^ 64 ∧ s.tags.length < 2 ^ 64 ∧
    (∀ t ∈ s.tags, t.length < 2 ^ 64) ∧ s.date.nanos < 2 ^ 64 ∧ s.updated.nanos < 2 ^ 64

instance (s : Snippet) : Decidable s.WFBinary := by
  unfold Snippet.WFBinary
  infer_instance

theorem decU64_encU64 (n : Nat) (rest : List Nat) (h : n < 2 ^ 64) :
    decU64 (encU64 n ++ rest) = some (n, rest) := by
  simp only [encU64, decU64, List.cons_append, List.nil_append]
  congr 1
  congr 1
  omega

theorem decChar_encChar (c : Char) (rest : List Nat) :
    decChar (encChar c ++ rest) = some (c, rest) := by
  simp only [encChar, decChar, List.cons_append, List.nil_append]
  have hlt : c.toNat < 2 ^ 32 := by
    have := c.val.toNat_lt
    simpa [Char.toNat] using this
  have : c.toNat % 256 + 2 ^ 8 * (c.toNat / 2 ^ 8 % 256) + 2 ^ 16 * (c.toNat / 2 ^ 16 % 256) +
      2 ^ 24 * (c.toNat / 2 ^ 24 % 256) = c.toNat := by omega
  rw [this, Char.ofNat_toNat]

theorem decChars_enc (cs : List Char) (rest : List Nat) :
    decChars cs.length ((cs.map encChar).flatten ++ rest) = some (cs, rest) := by
  induction cs with
  | nil => simp [decChars]
  | cons c cs ih =>
    simp only [List.map_cons, List.flatten_cons, List.length_cons, List.append_assoc, decChars]
    rw [decChar_encChar c ((cs.map encChar).flatten ++ rest)]
    simp [ih]

theorem decString_encString (s : String) (rest : List Nat) (h : s.length < 2 ^ 64) :
    decString (encString s ++ rest) = some (s, rest) := by
  unfold decString encString
  rw [List.append_assoc, decU64_encU64 s.length _ h]
  have h2 : decChars s.length ((s.data.map encChar).flatten ++ rest) = some (s.data, rest) :=
    decChars_enc s.data rest
  simp [h2]

theorem decStrings_enc (ss : List String) (rest : List Nat)
    (h : ∀ t ∈ ss, t.length < 2 ^ 64) :
    decStrings ss.length ((ss.map encString).flatten ++ rest) = some (ss, rest) := by
  induction ss with
  | nil => simp [decStrings]
  | cons s ss ih =>
    simp only [List.map_cons, List.flatten_cons, List.length_cons, List.append_assoc, decStrings]
    rw [decString_encString s _ (h s (by simp))]
    have := ih (fun t ht => h t (by simp [ht]))
    simp [this]

theorem decStringList_enc (ss : List String) (rest : List Nat)
    (hlen : ss.length < 2 ^ 64) (h : ∀ t ∈ ss, t.length < 2 ^ 64) :
    decStringList (encStringList ss ++ rest) = some (ss, rest) := by
  unfold decStringList encStringList
  rw [List.append_assoc, decU64_encU64 ss.length _ hlen]
  simp [decStrings_enc ss rest h]

theorem decDateTime_enc (d : DateTime) (rest : List Nat) (h : d.nanos < 2 ^ 64) :
    decDateTime (encDateTime d ++ rest) = some (d, rest) := by
  unfold decDateTime encDateTime
  rw [decU64_encU64 d.nanos _ h]
  simp

/-- C1: For every snippet `s` (whose 64-bit quantities are in range, as in the
Rust types), decoding the compact binary encoding of `s` succeeds and yields a
snippet equal to `s` field-for-field, with timestamps exact to full precision
and tag order preserved. -/
theorem binary_roundtrip (s : Snippet) (h : s.WFBinary) :
    Snippet.from_bytes s.to_bytes = some s := by
  obtain ⟨h1, h2, h3, h4, h5, h6, h7, h8, h9⟩ := h
  unfold Snippet.to_bytes Snippet.from_bytes
  simp only [List.append_assoc]
  rw [decU64_encU64 _ _ h1]
  simp only [Option.bind_eq_bind, Option.some_bind]
  rw [decString_encString _ _ h2]
  simp only [Option.bind_eq_bind, Option.some_bind]
  rw [decString_encString _ _ h3]
  simp only [Option.bind_eq_bind, Option.some_bind]
  rw [decString_encString _ _ h4]
  simp only [Option.bind_eq_bind, Option.some_bind]
  rw [decString_encString _ _ h5]
  simp only [Option.bind_eq_bind, Option.some_bind]
  rw [decStringList_enc _ _ h6 h7]
  simp only [Option.bind_eq_bind, Option.some_bind]
  rw [decDateTime_enc _ _ h8]
  simp only [Option.bind_eq_bind, Option.some_bind]
  rw [show encDateTime s.updated = encDateTime s.updated ++ [] from (List.append_nil _).symm]
  rw [decDateTime_enc _ _ h9]
  simp only [Option.bind_eq_bind, Option.some_bind]

/-- Witness for C1 at a concrete snippet. -/
theorem binary_roundtrip_witness :
    Snippet.from_bytes (Snippet.to_bytes
      { index := 1, description := "add two numbers", language := "rust",
        code := "fn add(a, b) a + b", extension := ".rs", tags := ["math", "demo"],
        date := ⟨1672531200000000000⟩, updated := ⟨1672531200000000000⟩ }) =
    some { index := 1, description := "add two numbers", language := "rust",
           code := "fn add(a, b) a + b", extension := ".rs", tags := ["math", "demo"],
           date := ⟨1672531200000000000⟩, updated := ⟨1672531200000000000⟩ } :=
  binary_roundtrip _ (by decide)

/-!
Streamed JSON codec (`Snippet::to_json` / `Snippet::read`).

`serde_json::to_writer` appends one self-delimited JSON value per snippet, with
the struct fields in declaration order; `serde_json::Deserializer::into_iter`
reads JSON values back one at a time. The byte-level JSON grammar belongs to
serde_json; the embedding works at the level of the JSON values it exchanges.
`chrono` serializes a `DateTime<Utc>` as a JSON string that parses back to the
same instant; the string is modelled as the decimal nanosecond counter. -/

/-- One JSON value. -/
inductive Json where
  | null
  | bool (b : Bool)
  | num (n : Int)
  | str (s : String)
  | arr (items : List Json)
  | obj (fields : List (String × Json))

/-- The decimal digit character for `d < 10`. -/
def digitChar (d : Nat) : Char := Char.ofNat (48 + d)

/-- Decimal representation of a natural number (most significant digit first;
`0` is represented by the empty digit string, which parses back to `0`). -/
def natToString (n : Nat) : String :=
  String.mk (((Nat.digits 10 n).reverse).map digitChar)

/-- Parses a most-significant-first decimal digit string. -/
def parseNat (cs : List Char) : Nat :=
  cs.foldl (fun a c => 10 * a + (c.toNat - 48)) 0

/-- The serialized form of an instant: its nanosecond counter in decimal. -/
def dtToString (d : DateTime) : String := natToString d.nanos

/-- Parses a serialized instant; rejects non-digit characters. -/
def dtFromString (s : String) : Except String DateTime :=
  if s.data.all (fun c => c.isDigit) then Except.ok ⟨parseNat s.data⟩
  else Except.error "invalid timestamp"

theorem digitChar_toNat (d : Nat) (h : d < 10) : (digitChar d).toNat - 48 = d := by
  interval_cases d <;> decide

theorem digitChar_isDigit (d : Nat) (h : d < 10) : (digitChar d).isDigit = true := by
  interval_cases d <;> decide

theorem foldl_base10 (ds : List Nat) (a : Nat) :
    (ds.reverse).foldl (fun x d => 10 * x + d) a = a * 10 ^ ds.length + Nat.ofDigits 10 ds := by
  induction ds generalizing a with
  | nil => simp
  | cons d ds ih =>
    simp only [List.reverse_cons, List.foldl_append, List.foldl_cons, List.foldl_nil, ih,
      List.length_cons, Nat.ofDigits_cons, pow_succ]
    ring

theorem foldl_parse_map (ds : List Nat) (h : ∀ d ∈ ds, d < 10) (a : Nat) :
    (ds.map digitChar).foldl (fun x c => 10 * x + (c.toNat - 48)) a =
      ds.foldl (fun x d => 10 * x + d) a := by
  induction ds generalizing a with
  | nil => simp
  | cons d ds ih =>
    simp only [List.map_cons, List.foldl_cons]
    rw [digitChar_toNat d (h d (by simp))]
    exact ih (fun x hx => h x (by simp [hx])) _

theorem parseNat_natToString (n : Nat) : parseNat (natToString n).data = n := by
  have hd : ∀ d ∈ (Nat.digits 10 n).reverse, d < 10 := by
    intro d hdm
    exact Nat.digits_lt_base (by norm_num) (List.mem_reverse.mp hdm)
  unfold parseNat natToString
  show (((Nat.digits 10 n).reverse).map digitChar).foldl _ 0 = n
  rw [foldl_parse_map _ hd 0, foldl_base10]
  simp [Nat.ofDigits_digits]

theorem dtFromString_dtToString (d : DateTime) : dtFromString (dtToString d) = Except.ok d := by
  unfold dtFromString
  have hall : (dtToString d).data.all (fun c => c.isDigit) = true := by
    unfold dtToString natToString
    show (((Nat.digits 10 d.nanos).reverse).map digitChar).all _ = true
    refine List.all_eq_true.mpr ?_
    intro c hc
    obtain ⟨x, hx, rfl⟩ := List.mem_map.mp hc
    exact digitChar_isDigit x (Nat.digits_lt_base (by norm_num) (List.mem_reverse.mp hx))
  rw [hall]
  simp only [if_true]
  have : parseNat (dtToString d).data = d.nanos := parseNat_natToString d.nanos
  rw [this]

/-- `Snippet::to_json`: `serde_json::to_writer(json_writer, self)` appends one
JSON object with the eight fields in declaration order. -/
def Snippet.to_json (s : Snippet) : Json :=
  Json.obj [("index", Json.num (s.index : Int)), ("description", Json.str s.description),
    ("language", Json.str s.language), ("code", Json.str s.code),
    ("extension", Json.str s.extension), ("tags", Json.arr (s.tags.map Json.str)),
    ("date", Json.str (dtToString s.date)), ("updated", Json.str (dtToString s.updated))]

/-- serde: a JSON value deserialized as a Rust `String`. -/
def asString : Json → Except String String
  | Json.str s => Except.ok s
  | _ => Except.error "invalid type: expected a string"

/-- serde: a JSON value deserialized as a Rust `usize` (rejects negatives). -/
def asIndex : Json → Except String Nat
  | Json.num n => if n < 0 then Except.error "invalid value: negative index" else Except.ok n.toNat
  | _ => Except.error "invalid type: expected an integer"

/-- serde: a JSON value deserialized as `Vec<String>`. -/
def asStringList : Json → Except String (List String)
  | Json.arr items => items.mapM asString
  | _ => Except.error "invalid type: expected an array"

/-- serde + chrono: a JSON value deserialized as `DateTime<Utc>`. -/
def asDateTime (j : Json) : Except String DateTime := do
  let s ← asString j
  dtFromString s

/-- The serde-derived `Deserialize` impl for `Snippet`: `description`,
`language` and `code` are required; `index`, `extension` and `tags` fall back
to `#[serde(default)]` (zero, empty, empty); `date` and `updated` fall back to
`#[serde(default = "Utc::now")]`, modelled by the `now` parameter. -/
def snippetFromJson (now : DateTime) : Json → Except String Snippet
  | Json.obj fields => do
    let index ← (match fields.lookup "index" with
      | some v => asIndex v
      | none => Except.ok 0)
    let description ← (match fields.lookup "description" with
      | some v => asString v
      | none => Except.error "missing field description")
    let language ← (match fields.lookup "language" with
      | some v => asString v
      | none => Except.error "missing field language")
    let code ← (match fields.lookup "code" with
      | some v => asString v
      | none => Except.error "missing field code")
    let extension ← (match fields.lookup "extension" with
      | some v => asString v
      | none => Except.ok "")
    let tags ← (match fields.lookup "tags" with
      | some v => asStringList v
      | none => Except.ok [])
    let date ← (match fields.lookup "date" with
      | some v => asDateTime v
      | none => Except.ok now)
    let updated ← (match fields.lookup "updated" with
      | some v => asDateTime v
      | none => Except.ok now)
    Except.ok { index := index, description := description, language := language, code := code,
                extension := extension, tags := tags, date := date, updated := updated }
  | _ => Except.error "invalid type: expected an object"

/-- One logical record pulled from the byte stream by serde_json's stream
deserializer: either a well-formed JSON value, or a syntax-level malformation
(reported with its message). -/
inductive RawRecord where
  | good (j : Json)
  | bad (msg : String)

/-- `Snippet::read`: `serde_json::Deserializer::from_reader(..).into_iter()`.
Yields one decode result per record; after yielding an error the stream
deserializer fuses, so nothing after the first failure is yielded. The decode
of record contents is `snippetFromJson`; `now` models the `Utc::now()` serde
defaults. -/
def Snippet.read (now : DateTime) : List RawRecord → List (Except String Snippet)
  | [] => []
  | RawRecord.good j :: rest =>
    match snippetFromJson now j with
    | Except.ok s => Except.ok s :: Snippet.read now rest
    | Except.error e => [Except.error e]
  | RawRecord.bad msg :: _ => [Except.error msg]

theorem asString_str (s : String) : asString (Json.str s) = Except.ok s := rfl

theorem asIndex_natCast (n : Nat) : asIndex (Json.num (n : Int)) = Except.ok n := by
  show (if (n : Int) < 0 then (Except.error "invalid value: negative index" : Except String Nat)
    else Except.ok (n : Int).toNat) = Except.ok n
  rw [if_neg (by omega)]
  simp

theorem mapM_asString_strs (ts : List String) :
    (ts.map Json.str).mapM asString = Except.ok ts := by
  induction ts with
  | nil => rfl
  | cons t ts ih =>
    rw [List.map_cons, List.mapM_cons, asString_str, ih]
    rfl

theorem asStringList_strs (ts : List String) :
    asStringList (Json.arr (ts.map Json.str)) = Except.ok ts :=
  mapM_asString_strs ts

theorem asDateTime_enc (d : DateTime) :
    asDateTime (Json.str (dtToString d)) = Except.ok d := by
  show dtFromString (dtToString d) = Except.ok d
  exact dtFromString_dtToString d

/-- Decoding the JSON object written for a snippet recovers it exactly. -/
theorem snippetFromJson_to_json (now : DateTime) (s : Snippet) :
    snippetFromJson now s.to_json = Except.ok s := by
  unfold Snippet.to_json snippetFromJson
  simp [List.lookup, asIndex_natCast, asString_str, asStringList_strs, asDateTime_enc]
  rfl

/-!
Presentation engine (`Snippet::pretty_print_header`, `pretty_print_code`,
`pretty_print`). Following the spec's structured-run design note, each emitted
`String` of the Rust code is modelled as one `Run`: a language-colored marker
block, a styled text span, a plain (unstyled) text span, or the style reset
`utils::END_ANSI`. Styles are opaque identifiers. -/

/-- Bind on `Except.ok` computes. -/
theorem ok_bind {e a b : Type} (x : a) (f : a → Except e b) :
    (Except.ok x >>= f : Except e b) = f x := rfl

/-- One contiguous emitted fragment. -/
inductive Run where
  | block (color : Nat)
  | styled (text : String) (style : Nat)
  | plain (text : String)
  | reset
deriving DecidableEq, Repr

/-- Modelled from the spec: `CodeHighlight` lives in src/language.rs, which is not
among the provided sources. It carries the three header styles and the
highlighting capability: the set of extensions with a registered grammar, and
the token coloring used for them. -/
structure CodeHighlight where
  main_style : Nat
  accent_style : Nat
  tag_style : Nat
  registered : List String
  tokenize : String → String → List Run

/-- `utils::END_ANSI`: the style-reset escape, as a run. -/
def END_ANSI : Run := Run.reset

/-- Modelled from the spec: `CodeHighlight::highlight_block` (src/language.rs)
renders the language-colored leading marker block. -/
def CodeHighlight.highlight_block (color : Nat) : Run := Run.block color

/-- Modelled from the spec: `CodeHighlight::highlight_string` (src/language.rs)
wraps a text span in one style. -/
def CodeHighlight.highlight_string (text : String) (style : Nat) : Run :=
  Run.styled text style

/-- Modelled from the spec: `CodeHighlight::highlight_code` (src/language.rs)
colors the code body via the grammar registered for the extension; "if the
highlighter has no grammar registered for the derived extension, the engine
must still return the raw code as unstyled text runs rather than aborting the
render". -/
def CodeHighlight.highlight_code (h : CodeHighlight) (code extension : String) : List Run :=
  if h.registered.contains extension then h.tokenize extension code else [Run.plain code]

/-- `Snippet::pretty_print_header`: pushes the marker block, the
`"#<index>. <description> "` span in `main_style`, the `"| <language> "` span in
`accent_style`, the `":<tag1>:<tag2>:...:\n"` span in `tag_style`, and
`END_ANSI`, in source order. -/
def Snippet.pretty_print_header (s : Snippet) (highlighter : CodeHighlight)
    (language : Language) : Except String (List Run) :=
  let colorized : List Run := []
  let block := CodeHighlight.highlight_block language.color
  let colorized := colorized ++ [block]
  let text1 := "#" ++ toString s.index ++ ". " ++ s.description ++ " "
  let colorized := colorized ++ [CodeHighlight.highlight_string text1 highlighter.main_style]
  let text2 := "| " ++ s.language ++ " "
  let colorized := colorized ++ [CodeHighlight.highlight_string text2 highlighter.accent_style]
  let text3 := ":" ++ String.intercalate ":" s.tags ++ ":" ++ "\n"
  let colorized := colorized ++ [CodeHighlight.highlight_string text3 highlighter.tag_style]
  let colorized := colorized ++ [END_ANSI]
  Except.ok colorized

/-- `Snippet::pretty_print_code`: the highlighted code body followed by
`END_ANSI`. -/
def Snippet.pretty_print_code (s : Snippet) (highlighter : CodeHighlight) :
    Except String (List Run) :=
  let colorized := highlighter.highlight_code s.code s.extension
  let colorized := colorized ++ [END_ANSI]
  Except.ok colorized

/-- `Snippet::pretty_print`: a leading newline, the header, a blank-line
separator, the code body, and two trailing newlines. -/
def Snippet.pretty_print (s : Snippet) (highlighter : CodeHighlight)
    (language : Language) : Except String (List Run) := do
  let header ← s.pretty_print_header highlighter language
  let codeRuns ← s.pretty_print_code highlighter
  Except.ok ([Run.plain "\n"] ++ header ++ [Run.plain "\n"] ++ codeRuns ++
    [Run.plain "\n"] ++ [Run.plain "\n"])

/-- C2: For every snippet `s`, including snippets with zero tags and empty
code, decoding the streamed structural (JSON) encoding of `s` (`read` applied
to what `to_json` wrote) yields exactly one successful record equal to `s`,
with index, date and updated preserved exactly. -/
theorem structural_roundtrip (s : Snippet) (now : DateTime) :
    Snippet.read now [RawRecord.good s.to_json] = [Except.ok s] := by
  simp [Snippet.read, snippetFromJson_to_json]

/-- C3: `filter_in_date_range` never fails and returns exactly the elements
whose date satisfies `from <= date < to` (half-open), in the original order (a
filtered subsequence); when `from == to` the result is empty. -/
theorem filter_in_date_range_spec (C : List Snippet) (a b : DateTime) :
    Snippet.filter_in_date_range C a b =
      Except.ok (C.filter (fun s => decide (a.nanos ≤ s.date.nanos ∧ s.date.nanos < b.nanos))) ∧
    (C.filter (fun s => decide (a.nanos ≤ s.date.nanos ∧ s.date.nanos < b.nanos))).Sublist C ∧
    (a = b → Snippet.filter_in_date_range C a b = Except.ok []) := by
  refine ⟨?_, List.filter_sublist C, ?_⟩
  · unfold Snippet.filter_in_date_range
    congr 1
    apply List.filter_congr
    intro s hs
    simp [Snippet.in_date_range]
  · intro h
    subst h
    unfold Snippet.filter_in_date_range
    congr 1
    refine List.filter_eq_nil_iff.mpr ?_
    intro s hs
    simp [Snippet.in_date_range]

/-- Witness for C3: on a one-element collection with `from == to` the filter
returns `Ok` of the empty list. -/
theorem filter_in_date_range_spec_witness :
    Snippet.filter_in_date_range
      [{ index := 1, description := "d", language := "r", code := "c", extension := ".r",
         tags := [], date := ⟨5⟩, updated := ⟨5⟩ }] ⟨5⟩ ⟨5⟩ = Except.ok [] :=
  (filter_in_date_range_spec _ ⟨5⟩ ⟨5⟩).2.2 rfl

/-- C9: a stream of well-formed records followed by one malformed record
decodes to one success per well-formed record, in order, followed by one
inspectable error item; the successes already read are not discarded. -/
theorem read_stream_error_isolated (snippets : List Snippet) (msg : String) (now : DateTime) :
    Snippet.read now (snippets.map (fun s => RawRecord.good s.to_json) ++ [RawRecord.bad msg]) =
      snippets.map Except.ok ++ [Except.error msg] := by
  induction snippets with
  | nil => rfl
  | cons s ss ih => simp [Snippet.read, snippetFromJson_to_json, ih]

/-- C10: `has_tag` returns true iff the tag is an exact, case-sensitive member
of the snippet's tag list. -/
theorem has_tag_iff (s : Snippet) (t : String) : s.has_tag t = true ↔ t ∈ s.tags := by
  simp [Snippet.has_tag]

/-- A concrete snippet used for concrete evaluations. -/
def sampleSnippet : Snippet :=
  { index := 1, description := "d", language := "rust", code := "c", extension := ".rs",
    tags := ["t"], date := ⟨0⟩, updated := ⟨0⟩ }

/-- A concrete highlighter with no registered grammars. -/
def sampleHighlight : CodeHighlight :=
  { main_style := 0, accent_style := 1, tag_style := 2, registered := [],
    tokenize := fun _ code => [Run.plain code] }

/-- A concrete language-table entry. -/
def sampleLanguage : Language := { extension := ".rs", color := 3 }

/-- A concrete language table. -/
def sampleTable : List (String × Language) := [("rust", sampleLanguage)]

/-- C4 counterexample: the final emitted run of a successful full render is a
plain newline, not the style-reset run (the reset is emitted two runs
earlier, after the code body). -/
theorem pretty_print_last_run_not_reset :
    (Snippet.pretty_print sampleSnippet sampleHighlight sampleLanguage).map List.getLast? =
      Except.ok (some (Run.plain "\n")) ∧ Run.plain "\n" ≠ Run.reset := by
  constructor
  · rfl
  · decide

/-- C4 amended: every successful full render emits exactly one style-reset run
after the code body, followed only by the two plain trailing newline runs; no
styled run follows it, so no style leaks into subsequently emitted text. -/
theorem pretty_print_reset_before_trailing_newlines (s : Snippet) (h : CodeHighlight)
    (lang : Language) :
    ∃ pre, s.pretty_print h lang =
      Except.ok (pre ++ [Run.reset, Run.plain "\n", Run.plain "\n"]) := by
  refine ⟨[Run.plain "\n"] ++
    [Run.block lang.color,
      Run.styled ("#" ++ toString s.index ++ ". " ++ s.description ++ " ") h.main_style,
      Run.styled ("| " ++ s.language ++ " ") h.accent_style,
      Run.styled (":" ++ String.intercalate ":" s.tags ++ ":" ++ "\n") h.tag_style,
      Run.reset] ++ [Run.plain "\n"] ++ h.highlight_code s.code s.extension, ?_⟩
  simp [Snippet.pretty_print, Snippet.pretty_print_header, Snippet.pretty_print_code,
    CodeHighlight.highlight_block, CodeHighlight.highlight_string, END_ANSI, ok_bind,
    List.append_assoc]

/-- C5: when the highlighter has no grammar registered for the snippet's
extension, `pretty_print_code` still returns, without error, non-empty output
containing the full code text as an unstyled run, with no styled run at all. -/
theorem pretty_print_code_unregistered (s : Snippet) (h : CodeHighlight)
    (hreg : h.registered.contains s.extension = false) :
    ∃ runs, s.pretty_print_code h = Except.ok runs ∧ runs ≠ [] ∧ Run.plain s.code ∈ runs ∧
      ∀ r ∈ runs, ∀ text style, r ≠ Run.styled text style := by
  refine ⟨[Run.plain s.code, Run.reset], ?_, ?_, ?_, ?_⟩
  · have hmem : s.extension ∉ h.registered := by simpa using hreg
    simp [Snippet.pretty_print_code, CodeHighlight.highlight_code, hmem, END_ANSI]
  · simp
  · simp
  · intro r hr text style
    rcases List.mem_cons.mp hr with rfl | hr2
    · simp
    · rcases List.mem_cons.mp hr2 with rfl | h3
      · simp
      · simp at h3

/-- Witness for C5 at a concrete snippet and highlighter. -/
theorem pretty_print_code_unregistered_witness :
    ∃ runs, Snippet.pretty_print_code sampleSnippet sampleHighlight = Except.ok runs ∧
      runs ≠ [] ∧ Run.plain sampleSnippet.code ∈ runs ∧
      ∀ r ∈ runs, ∀ text style, r ≠ Run.styled text style :=
  pretty_print_code_unregistered sampleSnippet sampleHighlight (by decide)

/-- C6 counterexample: an edit that supplies an explicit (future) date
produces a snippet with `date > updated`: editing with date day 1 while the
clock reads instant 0 gives `date.nanos = 86400000000000 > 0 = updated.nanos`. -/
theorem from_user_future_date_violates_invariant :
    ¬ ((Snippet.from_user 1 [] (some sampleSnippet) "d" "r" "t" 1 "c" "e" ⟨0⟩ ⟨0⟩).date.nanos ≤
       (Snippet.from_user 1 [] (some sampleSnippet) "d" "r" "t" 1 "c" "e" ⟨0⟩ ⟨0⟩).updated.nanos) := by
  decide

/-- C6 amended: `date <= updated` holds for every snippet produced by creation,
and for every snippet produced by an edit whose supplied explicit date
(midnight of the entered day) is not after the edit's clock reading. -/
theorem from_user_date_le_updated (index : Nat) (languages : List (String × Language))
    (old : Option Snippet) (d l tg : String) (date_days : Nat) (ci ec : String)
    (now1 now2 : DateTime) (hclock : now1.nanos ≤ now2.nanos)
    (hedit : old.isSome = true → date_days * nanosPerDay ≤ now2.nanos) :
    (Snippet.from_user index languages old d l tg date_days ci ec now1 now2).date.nanos ≤
      (Snippet.from_user index languages old d l tg date_days ci ec now1 now2).updated.nanos := by
  cases old with
  | none => simpa [Snippet.from_user, Snippet.new] using hclock
  | some o => simpa [Snippet.from_user, Snippet.new, midnight] using hedit rfl

/-- Witness for C6 amended, on the creation path. -/
theorem from_user_date_le_updated_witness :
    (Snippet.from_user 1 [] none "d" "r" "t" 0 "c" "e" ⟨5⟩ ⟨7⟩).date.nanos ≤
      (Snippet.from_user 1 [] none "d" "r" "t" 0 "c" "e" ⟨5⟩ ⟨7⟩).updated.nanos :=
  from_user_date_le_updated 1 [] none "d" "r" "t" 0 "c" "e" ⟨5⟩ ⟨7⟩ (by decide)
    (fun h => by cases h)

/-- A structural record with no `extension` field (and no `tags`, `date`,
`updated`, `index`), as a bulk import may contain. -/
def sampleImport : Json :=
  Json.obj [("description", Json.str "d"), ("language", Json.str "rust"),
    ("code", Json.str "c")]

/-- C7 counterexample: the streamed decode — an operation of this core —
produces a snippet whose `extension` (serde default: the empty string) diverges
from the value derived from its `language` via the table (".rs" for "rust"). -/
theorem decode_extension_diverges :
    (Snippet.read ⟨0⟩ [RawRecord.good sampleImport]).map (Except.map Snippet.extension) =
      [Except.ok ""] ∧
    (Snippet.read ⟨0⟩ [RawRecord.good sampleImport]).map (Except.map Snippet.language) =
      [Except.ok "rust"] ∧
    get_extension "rust" sampleTable = ".rs" ∧ ("" : String) ≠ ".rs" := by
  refine ⟨rfl, rfl, rfl, by decide⟩

/-- C7 amended: the operations that derive the extension (`from_user` and
`set_extension`) always produce a snippet whose `extension` equals
`get_extension` of its `language`; the decoders, by contrast, take `extension`
verbatim from the record (defaulting to empty when absent), so decoded
snippets may diverge (see the counterexample). -/
theorem extension_derived_on_construct (index : Nat) (languages : List (String × Language))
    (old : Option Snippet) (d l tg : String) (date_days : Nat) (ci ec : String)
    (now1 now2 : DateTime) (s : Snippet) (lang_name : String) :
    (Snippet.from_user index languages old d l tg date_days ci ec now1 now2).extension =
      get_extension
        (Snippet.from_user index languages old d l tg date_days ci ec now1 now2).language
        languages ∧
    (s.set_extension lang_name languages).extension = get_extension lang_name languages := by
  constructor
  · simp [Snippet.from_user, Snippet.new]
  · rfl

/-- C8: the segmented header render produces exactly, in order: the
language-colored marker block, `"#<index>. <description> "` in the main style,
`"| <language> "` in the accent style, `":<tag1>:<tag2>:...:\n"` in the tag
style — followed by the reset push the source appends. -/
theorem pretty_print_header_runs (s : Snippet) (h : CodeHighlight) (lang : Language) :
    s.pretty_print_header h lang =
      Except.ok [Run.block lang.color,
        Run.styled ("#" ++ toString s.index ++ ". " ++ s.description ++ " ") h.main_style,
        Run.styled ("| " ++ s.language ++ " ") h.accent_style,
        Run.styled (":" ++ String.intercalate ":" s.tags ++ ":" ++ "\n") h.tag_style,
        Run.reset] := rfl

end TheWay
